import Mathlib

/-!
Verification of the `typeinfo` crate: a runtime reflection library for POD
types.  The descriptor model (`Ty`, `NamedField`, `Field` and the `size` /
shape queries) is embedded from `src/lib.rs`; the registration layer
(`type_info` for scalars, fixed-size arrays of length 0..=63, built-in tuples
of arity 0..=16, and `def!`-generated unit / named / tuple structs) is
embedded from the `impl_scalar` / `impl_array` / `impl_tuple` / `def!` macros
of the same file.  The host platform's layout computation (`mem::size_of` and
the address-of-field offsets that the macros read back), which is external to
the crate, is modelled explicitly as the standard in-declaration-order layout
algorithm with alignment padding (or, under `#[repr(packed)]`, without it).
-/

namespace Typeinfo

mutual

/-- The `Type` enum of `src/lib.rs` (named `Ty` since `Type` is reserved in
Lean): scalar kinds, fixed-size array, compound (named-field struct) and
tuple / tuple struct.  `Compound` and `Tuple` store their fields together
with the total size in bytes. -/
inductive Ty where
  | Int8
  | Int16
  | Int32
  | Int64
  | UInt8
  | UInt16
  | UInt32
  | UInt64
  | Float32
  | Float64
  | Char
  | Bool
  | Array (ty : Ty) (num : Nat)
  | Compound (fields : List NamedField) (size : Nat)
  | Tuple (fields : List Field) (size : Nat)

/-- `NamedField` of `src/lib.rs`: field value type, field name, offset to the
beginning of the struct. -/
inductive NamedField where
  | mk (ty : Ty) (name : String) (offset : Nat)

/-- `Field` of `src/lib.rs`: field value type and offset to the beginning of
the struct. -/
inductive Field where
  | mk (ty : Ty) (offset : Nat)

end

/-- Projection: the `ty` member of `NamedField`. -/
def NamedField.ty : NamedField → Ty
  | .mk t _ _ => t

/-- Projection: the `name` member of `NamedField`. -/
def NamedField.name : NamedField → String
  | .mk _ n _ => n

/-- Projection: the `offset` member of `NamedField`. -/
def NamedField.offset : NamedField → Nat
  | .mk _ _ o => o

/-- Projection: the `ty` member of `Field`. -/
def Field.ty : Field → Ty
  | .mk t _ => t

/-- Projection: the `offset` member of `Field`. -/
def Field.offset : Field → Nat
  | .mk _ o => o

/-- `Type::size` of `src/lib.rs`: total size of a type value in bytes.
Scalars have their fixed width, an array multiplies the element size by the
length, and `Compound` / `Tuple` return the stored total size. -/
def Ty.size : Ty → Nat
  | .Int8 | .UInt8 | .Bool => 1
  | .Int16 | .UInt16 => 2
  | .Int32 | .UInt32 | .Float32 | .Char => 4
  | .Int64 | .UInt64 | .Float64 => 8
  | .Array ty num => ty.size * num
  | .Compound _ size => size
  | .Tuple _ size => size

/-- `Type::is_array` of `src/lib.rs`. -/
def Ty.is_array (t : Ty) :=
  match t with
  | .Array _ _ => true
  | _ => false

/-- `Type::is_compound` of `src/lib.rs`. -/
def Ty.is_compound (t : Ty) :=
  match t with
  | .Compound _ _ => true
  | _ => false

/-- `Type::is_tuple` of `src/lib.rs`. -/
def Ty.is_tuple (t : Ty) :=
  match t with
  | .Tuple _ _ => true
  | _ => false

/-- `Type::is_scalar` of `src/lib.rs`: defined as none of array / compound /
tuple. -/
def Ty.is_scalar (t : Ty) :=
  !t.is_array && !t.is_compound && !t.is_tuple

/-- Host pointer width: the crate distinguishes 32- and 64-bit targets via
`cfg(target_pointer_width)`. -/
inductive PtrWidth where
  | w32
  | w64

mutual

/-- Syntax of the host types for which the crate registers `TypeInfo`
implementations: the built-in scalars (`impl_scalar`), fixed-size arrays
(`impl_array`), built-in tuples (`impl_tuple`), and the structs produced by
the `def!` macro — named-field or unit structs (`@impl_struct`) and tuple
structs (`@impl_tuple`), each optionally `#[repr(packed)]`. -/
inductive RustTy where
  | i8
  | i16
  | i32
  | i64
  | u8
  | u16
  | u32
  | u64
  | f32
  | f64
  | char
  | bool
  | isize
  | usize
  | array (elem : RustTy) (n : Nat)
  | tuple (elems : RustFields)
  | structNamed (packed : Bool) (fields : RustNamedFields)
  | structTuple (packed : Bool) (fields : RustFields)

/-- A list of positional (tuple / tuple struct) field types. -/
inductive RustFields where
  | nil
  | cons (hd : RustTy) (tl : RustFields)

/-- A list of named struct fields: declared name and type. -/
inductive RustNamedFields where
  | nil
  | cons (fname : String) (hd : RustTy) (tl : RustNamedFields)

end

/-- Number of positional fields. -/
def RustFields.length : RustFields → Nat
  | .nil => 0
  | .cons _ tl => tl.length + 1

/-- The positional field types, in declaration order. -/
def RustFields.toList : RustFields → List RustTy
  | .nil => []
  | .cons t tl => t :: tl.toList

/-- The declared field names, in declaration order. -/
def RustNamedFields.names : RustNamedFields → List String
  | .nil => []
  | .cons n _ tl => n :: tl.names

/-- The declared field types, in declaration order. -/
def RustNamedFields.tys : RustNamedFields → List RustTy
  | .nil => []
  | .cons _ t tl => t :: tl.tys

/-- Number of named fields. -/
def RustNamedFields.length : RustNamedFields → Nat
  | .nil => 0
  | .cons _ _ tl => tl.length + 1

/-- Round `off` up to the next multiple of `a` (the platform's alignment
padding; `a = 0` never occurs for real alignments). -/
def alignUp (off a : Nat) : Nat :=
  if a = 0 then off else (off + a - 1) / a * a

/-- Platform layout: byte offsets of the fields of a struct whose fields have
the given (size, align) pairs, laid out in declaration order; under packed
representation every field's alignment is taken as 1. `off` is the running
position. -/
def layoutOffsets (packed : Bool) (off : Nat) : List (Nat × Nat) → List Nat
  | [] => []
  | sa :: rest =>
      let a := if packed then 1 else sa.2
      let o := alignUp off a
      o :: layoutOffsets packed (o + sa.1) rest

/-- Platform layout: the end position (offset one past the last field's
storage) after laying out the given fields starting at `off`. -/
def layoutEnd (packed : Bool) (off : Nat) : List (Nat × Nat) → Nat
  | [] => off
  | sa :: rest =>
      let a := if packed then 1 else sa.2
      layoutEnd packed (alignUp off a + sa.1) rest

/-- Platform layout: the alignment of a struct, the maximum of its fields'
alignments (1 when packed or empty). -/
def layoutAlign (packed : Bool) : List (Nat × Nat) → Nat
  | [] => 1
  | sa :: rest => max (if packed then 1 else sa.2) (layoutAlign packed rest)

/-- Platform layout: total size of a struct — the end position rounded up to
the struct's own alignment. -/
def structSize (packed : Bool) (sas : List (Nat × Nat)) : Nat :=
  alignUp (layoutEnd packed 0 sas) (layoutAlign packed sas)

/-- Field offsets of a struct, from position 0. -/
def offsetsOf (packed : Bool) (sas : List (Nat × Nat)) : List Nat :=
  layoutOffsets packed 0 sas

mutual

/-- Platform (size, alignment) of a host type, modelling what `mem::size_of`
and field-address arithmetic observe on a typical target of the given pointer
width: scalars have size = alignment = their width, arrays multiply, and
structs / tuples are laid out in declaration order with alignment padding
(none under `#[repr(packed)]`). -/
def tySA (w : PtrWidth) : RustTy → Nat × Nat
  | .i8 | .u8 | .bool => (1, 1)
  | .i16 | .u16 => (2, 2)
  | .i32 | .u32 | .f32 | .char => (4, 4)
  | .i64 | .u64 | .f64 => (8, 8)
  | .isize | .usize =>
      match w with
      | .w32 => (4, 4)
      | .w64 => (8, 8)
  | .array e n => ((tySA w e).1 * n, (tySA w e).2)
  | .tuple es => (structSize false (fieldsSA w es), layoutAlign false (fieldsSA w es))
  | .structNamed p fs => (structSize p (namedSA w fs), layoutAlign p (namedSA w fs))
  | .structTuple p fs => (structSize p (fieldsSA w fs), layoutAlign p (fieldsSA w fs))

/-- Platform (size, alignment) pairs of a positional field list, in order. -/
def fieldsSA (w : PtrWidth) : RustFields → List (Nat × Nat)
  | .nil => []
  | .cons t ts => tySA w t :: fieldsSA w ts

/-- Platform (size, alignment) pairs of a named field list, in order. -/
def namedSA (w : PtrWidth) : RustNamedFields → List (Nat × Nat)
  | .nil => []
  | .cons _ t ts => tySA w t :: namedSA w ts

end

/-- The platform's `mem::size_of` for a host type. -/
def size_of (w : PtrWidth) (t : RustTy) : Nat :=
  (tySA w t).1

/-- Build `NamedField`s by pairing the (name, descriptor) list with the
platform field offsets, as `def!(@impl_struct)` does field by field. -/
def zipNamed : List (String × Ty) → List Nat → List NamedField
  | (n, d) :: ds, o :: os => NamedField.mk d n o :: zipNamed ds os
  | _, _ => []

/-- Build anonymous `Field`s by pairing descriptors with offsets, as
`def!(@parse_tuple_fields)` does. -/
def zipFields : List Ty → List Nat → List Field
  | d :: ds, o :: os => Field.mk d o :: zipFields ds os
  | _, _ => []

mutual

/-- `TypeInfo::type_info` as the crate implements it: scalars map directly to
their variant (`impl_scalar`, with `isize` / `usize` resolved by pointer
width); arrays of length 0..=63 wrap the element's descriptor
(`impl_array!`); built-in tuples of arity 0..=16 (`impl_tuple!`) and `def!`
structs build `Tuple` / `Compound` from each field's own descriptor, the
field's structural byte offset within the type, and the platform's
`size_of`.  Types outside the registered range (longer arrays, wider tuples,
a field that is itself not describable) have no implementation, hence
`none`. -/
def type_info (w : PtrWidth) : RustTy → Option Ty
  | .i8 => some .Int8
  | .i16 => some .Int16
  | .i32 => some .Int32
  | .i64 => some .Int64
  | .u8 => some .UInt8
  | .u16 => some .UInt16
  | .u32 => some .UInt32
  | .u64 => some .UInt64
  | .f32 => some .Float32
  | .f64 => some .Float64
  | .char => some .Char
  | .bool => some .Bool
  | .isize =>
      match w with
      | .w32 => some .Int32
      | .w64 => some .Int64
  | .usize =>
      match w with
      | .w32 => some .UInt32
      | .w64 => some .UInt64
  | .array e n =>
      if n ≤ 63 then
        match type_info w e with
        | some d => some (.Array d n)
        | none => none
      else none
  | .tuple es =>
      if es.length ≤ 16 then
        match fieldInfos w es with
        | some ds =>
            some (.Tuple (zipFields ds (offsetsOf false (fieldsSA w es)))
                         (size_of w (.tuple es)))
        | none => none
      else none
  | .structNamed p fs =>
      match namedInfos w fs with
      | some ds =>
          some (.Compound (zipNamed ds (offsetsOf p (namedSA w fs)))
                          (size_of w (.structNamed p fs)))
      | none => none
  | .structTuple p fs =>
      match fieldInfos w fs with
      | some ds =>
          some (.Tuple (zipFields ds (offsetsOf p (fieldsSA w fs)))
                       (size_of w (.structTuple p fs)))
      | none => none

/-- Descriptors of a positional field list, in order (`none` if any element
type has no `TypeInfo` implementation). -/
def fieldInfos (w : PtrWidth) : RustFields → Option (List Ty)
  | .nil => some []
  | .cons t ts =>
      match type_info w t, fieldInfos w ts with
      | some d, some ds => some (d :: ds)
      | _, _ => none

/-- (name, descriptor) pairs of a named field list, in order (`none` if any
field type has no `TypeInfo` implementation). -/
def namedInfos (w : PtrWidth) : RustNamedFields → Option (List (String × Ty))
  | .nil => some []
  | .cons n t ts =>
      match type_info w t, namedInfos w ts with
      | some d, some ds => some ((n, d) :: ds)
      | _, _ => none

end

mutual

/-- The domain of the registered `TypeInfo` implementations: scalars always,
arrays when the length is in the supported range 0..=63 and the element is
describable, tuples when the arity is at most 16 and every element is
describable, `def!` structs when every field type is describable. -/
def describable : RustTy → Bool
  | .i8 | .i16 | .i32 | .i64 | .u8 | .u16 | .u32 | .u64
  | .f32 | .f64 | .char | .bool | .isize | .usize => true
  | .array e n => decide (n ≤ 63) && describable e
  | .tuple es => decide (es.length ≤ 16) && fieldsDescribable es
  | .structNamed _ fs => namedDescribable fs
  | .structTuple _ fs => fieldsDescribable fs

/-- Every positional field type is describable. -/
def fieldsDescribable : RustFields → Bool
  | .nil => true
  | .cons t ts => describable t && fieldsDescribable ts

/-- Every named field type is describable. -/
def namedDescribable : RustNamedFields → Bool
  | .nil => true
  | .cons _ t ts => describable t && namedDescribable ts

end

/-- Running sums: `prefixSums c [s1, s2, ...] = [c, c + s1, c + s1 + s2, ...]`
(the spec's formula for packed field offsets). -/
def prefixSums (start : Nat) : List Nat → List Nat
  | [] => []
  | s :: ss => start :: prefixSums (start + s) ss

/-- The built-in scalar types, in the order of the `impl_scalar` block of
`src/lib.rs`. -/
def scalarTys : List RustTy :=
  [.i8, .i16, .i32, .i64, .u8, .u16, .u32, .u64,
   .f32, .f64, .char, .bool, .isize, .usize]

theorem alignUp_one (off : Nat) : alignUp off 1 = off := by
  simp [alignUp]

theorem layoutOffsets_length (p : Bool) :
    ∀ (off : Nat) (sas : List (Nat × Nat)),
      (layoutOffsets p off sas).length = sas.length
  | _, [] => rfl
  | off, sa :: rest => by
      simp [layoutOffsets, layoutOffsets_length p _ rest]

theorem layoutOffsets_packed :
    ∀ (off : Nat) (sas : List (Nat × Nat)),
      layoutOffsets true off sas = prefixSums off (sas.map Prod.fst)
  | _, [] => rfl
  | off, sa :: rest => by
      simp [layoutOffsets, prefixSums, alignUp_one,
            layoutOffsets_packed _ rest]

theorem layoutEnd_packed :
    ∀ (off : Nat) (sas : List (Nat × Nat)),
      layoutEnd true off sas = off + (sas.map Prod.fst).sum
  | _, [] => by simp [layoutEnd]
  | off, sa :: rest => by
      simp [layoutEnd, alignUp_one, layoutEnd_packed _ rest]
      omega

theorem layoutAlign_packed :
    ∀ sas : List (Nat × Nat), layoutAlign true sas = 1
  | [] => rfl
  | sa :: rest => by simp [layoutAlign, layoutAlign_packed rest]

theorem structSize_packed (sas : List (Nat × Nat)) :
    structSize true sas = (sas.map Prod.fst).sum := by
  simp [structSize, layoutAlign_packed, layoutEnd_packed, alignUp_one]

theorem prefixSums_length (ss : List Nat) :
    ∀ start : Nat, (prefixSums start ss).length = ss.length := by
  induction ss with
  | nil => intro start; rfl
  | cons s ss ih => intro start; simp [prefixSums, ih]

theorem prefixSums_get :
    ∀ (ss : List Nat) (start i : Nat) (h : i < (prefixSums start ss).length),
      (prefixSums start ss).get ⟨i, h⟩ = start + ((ss.take i).sum)
  | s :: ss, start, 0, _ => by simp [prefixSums]
  | s :: ss, start, i + 1, h => by
      simp only [prefixSums, List.get_cons_succ, List.take_succ_cons,
                 List.sum_cons]
      rw [prefixSums_get ss (start + s) i (by simpa [prefixSums] using h)]
      omega

theorem prefixSums_mem_le :
    ∀ (ss : List Nat) (start o : Nat),
      o ∈ prefixSums start ss → o ≤ start + ss.sum
  | [], _, _, h => by simp [prefixSums] at h
  | s :: ss, start, o, h => by
      simp only [prefixSums, List.mem_cons] at h
      rcases h with h | h
      · omega
      · have := prefixSums_mem_le ss (start + s) o h
        simp only [List.sum_cons]
        omega

theorem zipNamed_map_name :
    ∀ (ds : List (String × Ty)) (os : List Nat), ds.length = os.length →
      (zipNamed ds os).map NamedField.name = ds.map Prod.fst
  | [], [], _ => rfl
  | [], _ :: _, h => by simp at h
  | _ :: _, [], h => by simp at h
  | (n, d) :: ds, o :: os, h => by
      simp [zipNamed, NamedField.name,
            zipNamed_map_name ds os (by simpa using h)]

theorem zipNamed_map_offset :
    ∀ (ds : List (String × Ty)) (os : List Nat), ds.length = os.length →
      (zipNamed ds os).map NamedField.offset = os
  | [], [], _ => rfl
  | [], _ :: _, h => by simp at h
  | _ :: _, [], h => by simp at h
  | (n, d) :: ds, o :: os, h => by
      simp [zipNamed, NamedField.offset,
            zipNamed_map_offset ds os (by simpa using h)]

theorem zipFields_map_offset :
    ∀ (ds : List Ty) (os : List Nat), ds.length = os.length →
      (zipFields ds os).map Field.offset = os
  | [], [], _ => rfl
  | [], _ :: _, h => by simp at h
  | _ :: _, [], h => by simp at h
  | d :: ds, o :: os, h => by
      simp [zipFields, Field.offset,
            zipFields_map_offset ds os (by simpa using h)]

theorem zipFields_map_ty :
    ∀ (ds : List Ty) (os : List Nat), ds.length = os.length →
      (zipFields ds os).map Field.ty = ds
  | [], [], _ => rfl
  | [], _ :: _, h => by simp at h
  | _ :: _, [], h => by simp at h
  | d :: ds, o :: os, h => by
      simp [zipFields, Field.ty, zipFields_map_ty ds os (by simpa using h)]

theorem namedSA_length (w : PtrWidth) :
    ∀ fs : RustNamedFields, (namedSA w fs).length = fs.length
  | .nil => rfl
  | .cons _ _ ts => by
      simp [namedSA, RustNamedFields.length, namedSA_length w ts]

theorem fieldsSA_length (w : PtrWidth) :
    ∀ fs : RustFields, (fieldsSA w fs).length = fs.length
  | .nil => rfl
  | .cons _ ts => by
      simp [fieldsSA, RustFields.length, fieldsSA_length w ts]

theorem namedSA_map_fst (w : PtrWidth) :
    ∀ fs : RustNamedFields,
      (namedSA w fs).map Prod.fst = fs.tys.map (size_of w)
  | .nil => rfl
  | .cons _ t ts => by
      simp [namedSA, RustNamedFields.tys, size_of, namedSA_map_fst w ts]

theorem fieldsSA_map_fst (w : PtrWidth) :
    ∀ fs : RustFields,
      (fieldsSA w fs).map Prod.fst = fs.toList.map (size_of w)
  | .nil => rfl
  | .cons t ts => by
      simp [fieldsSA, RustFields.toList, size_of, fieldsSA_map_fst w ts]

theorem type_info_structNamed_eq (w : PtrWidth) (p : Bool)
    (fs : RustNamedFields) :
    type_info w (.structNamed p fs) =
      Option.map
        (fun ds => Ty.Compound (zipNamed ds (offsetsOf p (namedSA w fs)))
          (size_of w (.structNamed p fs)))
        (namedInfos w fs) := by
  cases h : namedInfos w fs <;> simp [type_info, h]

theorem type_info_structTuple_eq (w : PtrWidth) (p : Bool)
    (fs : RustFields) :
    type_info w (.structTuple p fs) =
      Option.map
        (fun ds => Ty.Tuple (zipFields ds (offsetsOf p (fieldsSA w fs)))
          (size_of w (.structTuple p fs)))
        (fieldInfos w fs) := by
  cases h : fieldInfos w fs <;> simp [type_info, h]

theorem type_info_tuple_eq (w : PtrWidth) (fs : RustFields)
    (hfs : fs.length ≤ 16) :
    type_info w (.tuple fs) =
      Option.map
        (fun ds => Ty.Tuple (zipFields ds (offsetsOf false (fieldsSA w fs)))
          (size_of w (.tuple fs)))
        (fieldInfos w fs) := by
  cases h : fieldInfos w fs <;> simp [type_info, hfs, h]

theorem namedInfos_length (w : PtrWidth) :
    ∀ (fs : RustNamedFields) (ds : List (String × Ty)),
      namedInfos w fs = some ds → ds.length = fs.length
  | .nil, ds, h => by
      simp [namedInfos] at h
      simp [← h, RustNamedFields.length]
  | .cons n t ts, ds, h => by
      cases h1 : type_info w t with
      | none => simp [namedInfos, h1] at h
      | some d =>
        cases h2 : namedInfos w ts with
        | none => simp [namedInfos, h1, h2] at h
        | some rest =>
            simp [namedInfos, h1, h2] at h
            simp [← h, RustNamedFields.length,
                  namedInfos_length w ts rest h2]

theorem namedInfos_fst (w : PtrWidth) :
    ∀ (fs : RustNamedFields) (ds : List (String × Ty)),
      namedInfos w fs = some ds → ds.map Prod.fst = fs.names
  | .nil, ds, h => by
      simp [namedInfos] at h
      simp [← h, RustNamedFields.names]
  | .cons n t ts, ds, h => by
      cases h1 : type_info w t with
      | none => simp [namedInfos, h1] at h
      | some d =>
        cases h2 : namedInfos w ts with
        | none => simp [namedInfos, h1, h2] at h
        | some rest =>
            simp [namedInfos, h1, h2] at h
            simp [← h, RustNamedFields.names, namedInfos_fst w ts rest h2]

theorem fieldInfos_length (w : PtrWidth) :
    ∀ (fs : RustFields) (ds : List Ty),
      fieldInfos w fs = some ds → ds.length = fs.length
  | .nil, ds, h => by
      simp [fieldInfos] at h
      simp [← h, RustFields.length]
  | .cons t ts, ds, h => by
      cases h1 : type_info w t with
      | none => simp [fieldInfos, h1] at h
      | some d =>
        cases h2 : fieldInfos w ts with
        | none => simp [fieldInfos, h1, h2] at h
        | some rest =>
            simp [fieldInfos, h1, h2] at h
            simp [← h, RustFields.length, fieldInfos_length w ts rest h2]

theorem get_map_eq {α β : Type} (g : α → β) :
    ∀ (l : List α) (i : Nat) (h : i < l.length),
      (l.map g).get ⟨i, by simpa using h⟩ = g (l.get ⟨i, h⟩)
  | _ :: _, 0, _ => rfl
  | _ :: l, i + 1, h => get_map_eq g l i (Nat.lt_of_succ_lt_succ (by simpa using h))

theorem get_of_map_eq {α β : Type} (g : α → β) (l : List α) (os : List β)
    (hm : l.map g = os) (i : Nat) (h : i < l.length) :
    g (l.get ⟨i, h⟩) = os.get ⟨i, by rw [← hm]; simpa using h⟩ := by
  subst hm
  exact (get_map_eq g l i h).symm

theorem structNamed_some_spec (w : PtrWidth) (p : Bool) (fs : RustNamedFields)
    (flds : List NamedField) (sz : Nat)
    (h : type_info w (.structNamed p fs) = some (.Compound flds sz)) :
    flds.map NamedField.name = fs.names ∧
    flds.map NamedField.offset = offsetsOf p (namedSA w fs) ∧
    sz = size_of w (.structNamed p fs) := by
  rw [type_info_structNamed_eq] at h
  cases h2 : namedInfos w fs with
  | none => rw [h2] at h; simp at h
  | some ds =>
      rw [h2] at h
      simp only [Option.map_some', Option.some.injEq, Ty.Compound.injEq] at h
      obtain ⟨hf, hsz⟩ := h
      have hlds : ds.length = fs.length := namedInfos_length w fs ds h2
      have hlo : (offsetsOf p (namedSA w fs)).length = fs.length := by
        simp [offsetsOf, layoutOffsets_length, namedSA_length]
      have hlen : ds.length = (offsetsOf p (namedSA w fs)).length := by
        rw [hlds, hlo]
      refine ⟨?_, ?_, hsz.symm⟩
      · rw [← hf, zipNamed_map_name ds _ hlen, namedInfos_fst w fs ds h2]
      · rw [← hf, zipNamed_map_offset ds _ hlen]

theorem structTuple_some_spec (w : PtrWidth) (p : Bool) (fs : RustFields)
    (flds : List Field) (sz : Nat)
    (h : type_info w (.structTuple p fs) = some (.Tuple flds sz)) :
    fieldInfos w fs = some (flds.map Field.ty) ∧
    flds.map Field.offset = offsetsOf p (fieldsSA w fs) ∧
    sz = size_of w (.structTuple p fs) := by
  rw [type_info_structTuple_eq] at h
  cases h2 : fieldInfos w fs with
  | none => rw [h2] at h; simp at h
  | some ds =>
      rw [h2] at h
      simp only [Option.map_some', Option.some.injEq, Ty.Tuple.injEq] at h
      obtain ⟨hf, hsz⟩ := h
      have hlds : ds.length = fs.length := fieldInfos_length w fs ds h2
      have hlo : (offsetsOf p (fieldsSA w fs)).length = fs.length := by
        simp [offsetsOf, layoutOffsets_length, fieldsSA_length]
      have hlen : ds.length = (offsetsOf p (fieldsSA w fs)).length := by
        rw [hlds, hlo]
      refine ⟨?_, ?_, hsz.symm⟩
      · rw [← hf, zipFields_map_ty ds _ hlen]
      · rw [← hf, zipFields_map_offset ds _ hlen]

theorem tuple_some_spec (w : PtrWidth) (fs : RustFields)
    (flds : List Field) (sz : Nat)
    (h : type_info w (.tuple fs) = some (.Tuple flds sz)) :
    fieldInfos w fs = some (flds.map Field.ty) ∧
    flds.map Field.offset = offsetsOf false (fieldsSA w fs) ∧
    sz = size_of w (.tuple fs) := by
  by_cases hl : fs.length ≤ 16
  · rw [type_info_tuple_eq w fs hl] at h
    cases h2 : fieldInfos w fs with
    | none => rw [h2] at h; simp at h
    | some ds =>
        rw [h2] at h
        simp only [Option.map_some', Option.some.injEq, Ty.Tuple.injEq] at h
        obtain ⟨hf, hsz⟩ := h
        have hlds : ds.length = fs.length := fieldInfos_length w fs ds h2
        have hlo : (offsetsOf false (fieldsSA w fs)).length = fs.length := by
          simp [offsetsOf, layoutOffsets_length, fieldsSA_length]
        have hlen : ds.length = (offsetsOf false (fieldsSA w fs)).length := by
          rw [hlds, hlo]
        refine ⟨?_, ?_, hsz.symm⟩
        · rw [← hf, zipFields_map_ty ds _ hlen]
        · rw [← hf, zipFields_map_offset ds _ hlen]
  · simp [type_info, hl] at h

mutual

theorem describable_type_info_isSome (w : PtrWidth) :
    ∀ t : RustTy, describable t = true → (type_info w t).isSome = true
  | .i8, _ | .i16, _ | .i32, _ | .i64, _
  | .u8, _ | .u16, _ | .u32, _ | .u64, _
  | .f32, _ | .f64, _ | .char, _ | .bool, _ => rfl
  | .isize, _ => by cases w <;> rfl
  | .usize, _ => by cases w <;> rfl
  | .array e n, h => by
      simp only [describable, Bool.and_eq_true, decide_eq_true_eq] at h
      have ih := describable_type_info_isSome w e h.2
      cases he : type_info w e with
      | none => rw [he] at ih; simp at ih
      | some d => simp [type_info, h.1, he]
  | .tuple es, h => by
      simp only [describable, Bool.and_eq_true, decide_eq_true_eq] at h
      have ih := fieldsDescribable_fieldInfos_isSome w es h.2
      cases he : fieldInfos w es with
      | none => rw [he] at ih; simp at ih
      | some ds => simp [type_info, h.1, he]
  | .structNamed p fs, h => by
      rw [describable] at h
      have ih := namedDescribable_namedInfos_isSome w fs h
      cases he : namedInfos w fs with
      | none => rw [he] at ih; simp at ih
      | some ds => simp [type_info, he]
  | .structTuple p fs, h => by
      rw [describable] at h
      have ih := fieldsDescribable_fieldInfos_isSome w fs h
      cases he : fieldInfos w fs with
      | none => rw [he] at ih; simp at ih
      | some ds => simp [type_info, he]

theorem fieldsDescribable_fieldInfos_isSome (w : PtrWidth) :
    ∀ fs : RustFields,
      fieldsDescribable fs = true → (fieldInfos w fs).isSome = true
  | .nil, _ => rfl
  | .cons t ts, h => by
      simp only [fieldsDescribable, Bool.and_eq_true] at h
      have i1 := describable_type_info_isSome w t h.1
      have i2 := fieldsDescribable_fieldInfos_isSome w ts h.2
      cases h1 : type_info w t with
      | none => rw [h1] at i1; simp at i1
      | some d =>
        cases h2 : fieldInfos w ts with
        | none => rw [h2] at i2; simp at i2
        | some ds => simp [fieldInfos, h1, h2]

theorem namedDescribable_namedInfos_isSome (w : PtrWidth) :
    ∀ fs : RustNamedFields,
      namedDescribable fs = true → (namedInfos w fs).isSome = true
  | .nil, _ => rfl
  | .cons n t ts, h => by
      simp only [namedDescribable, Bool.and_eq_true] at h
      have i1 := describable_type_info_isSome w t h.1
      have i2 := namedDescribable_namedInfos_isSome w ts h.2
      cases h1 : type_info w t with
      | none => rw [h1] at i1; simp at i1
      | some d =>
        cases h2 : namedInfos w ts with
        | none => rw [h2] at i2; simp at i2
        | some ds => simp [namedInfos, h1, h2]

end

/-- Claim C1: for every record (named-field struct) or tuple struct registered
via the derivation macros, the total size stored in the resulting `Compound` /
`Tuple` descriptor — the value `size()` returns on it — equals the platform's
`mem::size_of` for that concrete type, for any number of fields and under
both default and packed representation. -/
theorem record_total_size_matches_platform (w : PtrWidth) (p : Bool) :
    (∀ fs d, type_info w (.structNamed p fs) = some d →
        d.size = size_of w (.structNamed p fs)) ∧
    (∀ fs d, type_info w (.structTuple p fs) = some d →
        d.size = size_of w (.structTuple p fs)) := by
  constructor
  · intro fs d h
    rw [type_info_structNamed_eq] at h
    cases h2 : namedInfos w fs with
    | none => rw [h2] at h; simp at h
    | some ds =>
        rw [h2] at h
        simp only [Option.map_some', Option.some.injEq] at h
        simp [← h, Ty.size]
  · intro fs d h
    rw [type_info_structTuple_eq] at h
    cases h2 : fieldInfos w fs with
    | none => rw [h2] at h; simp at h
    | some ds =>
        rw [h2] at h
        simp only [Option.map_some', Option.some.injEq] at h
        simp [← h, Ty.size]

/-- Witness for C1 at the record `struct { a: i8, b: u64 }` under default
representation on a 64-bit target: the stored total size is the platform's 16
bytes (alignment padding included), which is not the 9-byte sum of the field
sizes. -/
theorem record_total_size_matches_platform_witness :
    Ty.size (Ty.Compound
        [NamedField.mk .Int8 "a" 0, NamedField.mk .UInt64 "b" 8] 16)
      = size_of .w64 (.structNamed false (.cons "a" .i8 (.cons "b" .u64 .nil)))
    ∧ size_of .w64 (.structNamed false (.cons "a" .i8 (.cons "b" .u64 .nil)))
        ≠ 1 + 8 :=
  ⟨(record_total_size_matches_platform .w64 false).1 _ _ rfl, by decide⟩

/-- Claim C2: for every record or tuple struct registered via the derivation
macros, each field's descriptor offset is the structural byte distance of the
field within the type (the platform layout's offset, not a sum of preceding
field sizes), and the field sequence of the resulting `Compound` / `Tuple`
descriptor is in declaration order, never reordered. -/
theorem record_fields_declaration_order_structural_offsets
    (w : PtrWidth) (p : Bool) :
    (∀ fs flds sz,
        type_info w (.structNamed p fs) = some (.Compound flds sz) →
          flds.map NamedField.name = fs.names ∧
          flds.map NamedField.offset = offsetsOf p (namedSA w fs)) ∧
    (∀ fs flds sz,
        type_info w (.structTuple p fs) = some (.Tuple flds sz) →
          fieldInfos w fs = some (flds.map Field.ty) ∧
          flds.map Field.offset = offsetsOf p (fieldsSA w fs)) := by
  constructor
  · intro fs flds sz h
    have hs := structNamed_some_spec w p fs flds sz h
    exact ⟨hs.1, hs.2.1⟩
  · intro fs flds sz h
    have hs := structTuple_some_spec w p fs flds sz h
    exact ⟨hs.1, hs.2.1⟩

/-- Witness for C2 at `struct { a: i8, b: u64 }` (default representation,
64-bit): names come out in declaration order and the offsets are the
platform's structural [0, 8] — accumulating preceding field sizes would have
produced [0, 1]. -/
theorem record_fields_declaration_order_structural_offsets_witness :
    ([NamedField.mk .Int8 "a" 0, NamedField.mk .UInt64 "b" 8].map
        NamedField.name
      = (RustNamedFields.cons "a" .i8 (.cons "b" .u64 .nil)).names ∧
     [NamedField.mk .Int8 "a" 0, NamedField.mk .UInt64 "b" 8].map
        NamedField.offset
      = offsetsOf false (namedSA .w64 (.cons "a" .i8 (.cons "b" .u64 .nil))))
    ∧ offsetsOf false (namedSA .w64 (.cons "a" .i8 (.cons "b" .u64 .nil)))
        = [0, 8] :=
  ⟨(record_fields_declaration_order_structural_offsets .w64 false).1
      _ _ 16 rfl, by decide⟩

/-- Claim C3 as frozen is refuted at a concrete input: the packed tuple struct
`struct P([u8; 0])` derives to `Tuple([Field(Array(UInt8, 0), offset 0)], 0)`,
and its single field's offset 0 does not lie in the half-open interval
[0, total_size) = [0, 0). -/
theorem packed_offset_interval_counterexample :
    type_info .w64 (.structTuple true (.cons (.array .u8 0) .nil))
      = some (.Tuple [Field.mk (.Array .UInt8 0) 0] 0) ∧
    ¬ (Field.mk (.Array .UInt8 0) 0).offset
        < Ty.size (.Tuple [Field.mk (.Array .UInt8 0) 0] 0) :=
  ⟨rfl, by decide⟩

/-- Claim C3, amended: for every record (named or tuple struct) registered
under packed representation, the descriptor assigns
`offset(field_i) = s1 + ... + s_(i-1)` exactly — the running sum of the
preceding fields' sizes, with zero padding — and every offset lies in the
closed interval [0, total_size] (a zero-sized trailing or sole field can make
an offset equal to total_size, so the interval is closed, not half-open). -/
theorem packed_offsets_are_prefix_sums (w : PtrWidth) :
    (∀ fs flds sz,
        type_info w (.structNamed true fs) = some (.Compound flds sz) →
          (∀ i (h : i < flds.length),
              (flds.get ⟨i, h⟩).offset
                = ((fs.tys.map (size_of w)).take i).sum) ∧
          (∀ f ∈ flds, f.offset ≤ sz)) ∧
    (∀ fs flds sz,
        type_info w (.structTuple true fs) = some (.Tuple flds sz) →
          (∀ i (h : i < flds.length),
              (flds.get ⟨i, h⟩).offset
                = ((fs.toList.map (size_of w)).take i).sum) ∧
          (∀ f ∈ flds, f.offset ≤ sz)) := by
  constructor
  · intro fs flds sz h
    obtain ⟨-, hoff, hsz⟩ := structNamed_some_spec w true fs flds sz h
    have hoff2 : flds.map NamedField.offset
        = prefixSums 0 (fs.tys.map (size_of w)) := by
      rw [hoff, offsetsOf, layoutOffsets_packed, namedSA_map_fst]
    have hsz2 : sz = (fs.tys.map (size_of w)).sum := by
      rw [hsz]
      show structSize true (namedSA w fs) = _
      rw [structSize_packed, namedSA_map_fst]
    constructor
    · intro i hi
      have := get_of_map_eq NamedField.offset flds _ hoff2 i hi
      rw [this, prefixSums_get]
      omega
    · intro f hf
      have hm : f.offset ∈ prefixSums 0 (fs.tys.map (size_of w)) := by
        rw [← hoff2]
        exact List.mem_map_of_mem _ hf
      have := prefixSums_mem_le _ _ _ hm
      omega
  · intro fs flds sz h
    obtain ⟨-, hoff, hsz⟩ := structTuple_some_spec w true fs flds sz h
    have hoff2 : flds.map Field.offset
        = prefixSums 0 (fs.toList.map (size_of w)) := by
      rw [hoff, offsetsOf, layoutOffsets_packed, fieldsSA_map_fst]
    have hsz2 : sz = (fs.toList.map (size_of w)).sum := by
      rw [hsz]
      show structSize true (fieldsSA w fs) = _
      rw [structSize_packed, fieldsSA_map_fst]
    constructor
    · intro i hi
      have := get_of_map_eq Field.offset flds _ hoff2 i hi
      rw [this, prefixSums_get]
      omega
    · intro f hf
      have hm : f.offset ∈ prefixSums 0 (fs.toList.map (size_of w)) := by
        rw [← hoff2]
        exact List.mem_map_of_mem _ hf
      have := prefixSums_mem_le _ _ _ hm
      omega

/-- Witness for the amended C3 at the packed tuple struct
`struct P(bool, i64)` (64-bit): the second field's offset is 1 = size of
`bool`, and both offsets are at most the total size 9. -/
theorem packed_offsets_are_prefix_sums_witness :
    ((Field.mk .Bool 0 :: [Field.mk .Int64 1]).get
        ⟨1, by decide⟩).offset
      = (((RustFields.cons .bool (.cons .i64 .nil)).toList.map
            (size_of .w64)).take 1).sum ∧
    ∀ f ∈ [Field.mk .Bool 0, Field.mk .Int64 1], f.offset ≤ 9 := by
  have hs := (packed_offsets_are_prefix_sums .w64).2
      (.cons .bool (.cons .i64 .nil)) [Field.mk .Bool 0, Field.mk .Int64 1]
      9 rfl
  exact ⟨hs.1 1 (by decide), hs.2⟩

/-- Claim C4: every built-in scalar type maps to its matching scalar `Type`
variant under `type_info()`, on both 32- and 64-bit targets (with `isize` /
`usize` resolving to the pointer-sized variants), and each resulting
variant's `size()` equals the host-native byte size of the type. -/
theorem scalar_round_trip :
    (scalarTys.map (type_info .w32)
      = [some .Int8, some .Int16, some .Int32, some .Int64,
         some .UInt8, some .UInt16, some .UInt32, some .UInt64,
         some .Float32, some .Float64, some .Char, some .Bool,
         some .Int32, some .UInt32]) ∧
    (scalarTys.map (type_info .w64)
      = [some .Int8, some .Int16, some .Int32, some .Int64,
         some .UInt8, some .UInt16, some .UInt32, some .UInt64,
         some .Float32, some .Float64, some .Char, some .Bool,
         some .Int64, some .UInt64]) ∧
    (scalarTys.map (fun t => Option.map Ty.size (type_info .w32 t))
      = scalarTys.map (fun t => some (size_of .w32 t))) ∧
    (scalarTys.map (fun t => Option.map Ty.size (type_info .w64 t))
      = scalarTys.map (fun t => some (size_of .w64 t))) :=
  ⟨rfl, rfl, rfl, rfl⟩

/-- Claim C5: for every describable element type and every supported length
`n ≤ 63`, `type_info` of the array type equals `Array` of the element's
descriptor and `n`, and its `size()` is the element size times `n` (holding
for `n = 0` and composing through nested arrays). -/
theorem array_composition (w : PtrWidth) (e : RustTy) (n : Nat) (de : Ty)
    (hn : n ≤ 63) (he : type_info w e = some de) :
    type_info w (.array e n) = some (.Array de n) ∧
    Ty.size (.Array de n) = de.size * n := by
  refine ⟨?_, rfl⟩
  simp [type_info, hn, he]

/-- Witness for C5 at the nested array `[[i8; 2]; 3]` and at the empty array
`[u8; 0]`. -/
theorem array_composition_witness :
    (type_info .w64 (.array (.array .i8 2) 3)
        = some (.Array (.Array .Int8 2) 3) ∧
      Ty.size (.Array (.Array .Int8 2) 3) = Ty.size (.Array .Int8 2) * 3) ∧
    (type_info .w64 (.array .u8 0) = some (.Array .UInt8 0) ∧
      Ty.size (.Array .UInt8 0) = Ty.size .UInt8 * 0) :=
  ⟨array_composition .w64 (.array .i8 2) 3 (.Array .Int8 2) (by decide) rfl,
   array_composition .w64 .u8 0 .UInt8 (by decide) rfl⟩

/-- Claim C6: every zero-field (unit) record registered via the derivation
mechanism derives to `Compound([], total_size)` with the platform's size for
the type — a fully-formed descriptor, not a sentinel — and `is_compound()` is
true for it. -/
theorem unit_record_empty_compound (w : PtrWidth) (p : Bool) :
    type_info w (.structNamed p .nil)
      = some (.Compound [] (size_of w (.structNamed p .nil))) ∧
    Ty.is_compound (.Compound [] (size_of w (.structNamed p .nil)))
      = true := by
  cases w <;> cases p <;> exact ⟨rfl, rfl⟩

/-- Claim C7: every constructible `Type` value satisfies exactly one of the
four predicates `is_scalar`, `is_array`, `is_tuple`, `is_compound`; in
particular `is_scalar` holds iff the value is none of `Array` / `Tuple` /
`Compound`. -/
theorem shape_classification_exclusive (t : Ty) :
    ((t.is_scalar = true ∧ t.is_array = false ∧ t.is_tuple = false ∧
        t.is_compound = false) ∨
     (t.is_scalar = false ∧ t.is_array = true ∧ t.is_tuple = false ∧
        t.is_compound = false) ∨
     (t.is_scalar = false ∧ t.is_array = false ∧ t.is_tuple = true ∧
        t.is_compound = false) ∨
     (t.is_scalar = false ∧ t.is_array = false ∧ t.is_tuple = false ∧
        t.is_compound = true)) ∧
    (t.is_scalar = (!t.is_array && !t.is_compound && !t.is_tuple)) := by
  constructor
  · cases t <;>
      simp [Ty.is_scalar, Ty.is_array, Ty.is_tuple, Ty.is_compound]
  · rfl

/-- Claim C8: the core operations are total — `type_info()` succeeds for
every describable type, and `size()` is defined for every `Type` value,
computing element size times length on arrays. -/
theorem core_operations_total (w : PtrWidth) :
    (∀ t : RustTy, describable t = true → (type_info w t).isSome = true) ∧
    (∀ (d : Ty) (n : Nat), Ty.size (.Array d n) = d.size * n) :=
  ⟨describable_type_info_isSome w, fun _ _ => rfl⟩

/-- Witness for C8 at a nested describable type: a struct holding an array of
three single-element tuples, and the array-size law at `Array(UInt16, 42)`. -/
theorem core_operations_total_witness :
    (type_info .w64 (.structNamed false (.cons "a" .i8
        (.cons "b" (.array (.tuple (.cons .u32 .nil)) 3) .nil)))).isSome
      = true ∧
    Ty.size (.Array .UInt16 42) = Ty.size .UInt16 * 42 :=
  ⟨(core_operations_total .w64).1 _ (by decide),
   (core_operations_total .w64).2 .UInt16 42⟩

/-- Claim C9: the generic array registration is defined for every length in
the supported range (0 through 63) whenever the element type is describable,
and an array descriptor is only ever obtained as `Array` of the element's
descriptor and the length. -/
theorem array_registration_range (w : PtrWidth) :
    (∀ (e : RustTy) (n : Nat), n ≤ 63 → (type_info w e).isSome = true →
        (type_info w (.array e n)).isSome = true) ∧
    (∀ (e : RustTy) (n : Nat) (d : Ty), type_info w (.array e n) = some d →
        ∃ de, type_info w e = some de ∧ d = .Array de n) := by
  constructor
  · intro e n hn hs
    cases he : type_info w e with
    | none => rw [he] at hs; simp at hs
    | some de => simp [type_info, hn, he]
  · intro e n d h
    by_cases hn : n ≤ 63
    · cases he : type_info w e with
      | none => simp [type_info, hn, he] at h
      | some de =>
          simp only [type_info, hn, if_true, he] at h
          exact ⟨de, rfl, (Option.some.inj h).symm⟩
    · simp [type_info, hn] at h

/-- Witness for C9 at the boundary length 63 with element `u16`. -/
theorem array_registration_range_witness :
    (type_info .w64 (.array .u16 63)).isSome = true ∧
    ∃ de, type_info .w64 .u16 = some de ∧ Ty.Array .UInt16 63 = .Array de 63 :=
  ⟨(array_registration_range .w64).1 .u16 63 (by decide) rfl,
   (array_registration_range .w64).2 .u16 63 _ rfl⟩

/-- Claim C10: built-in tuples are describable with no registration step: the
unit type yields `Tuple([], 0)`; a tuple of describable elements of arity at
most 16 always has a descriptor; and any tuple descriptor carries the
elements' descriptors in positional order, the structural platform offsets,
and the platform's total size. -/
theorem builtin_tuples_describable (w : PtrWidth) :
    (type_info w (.tuple .nil) = some (.Tuple [] 0)) ∧
    (∀ fs : RustFields, fs.length ≤ 16 → fieldsDescribable fs = true →
        (type_info w (.tuple fs)).isSome = true) ∧
    (∀ fs flds sz, type_info w (.tuple fs) = some (.Tuple flds sz) →
        sz = size_of w (.tuple fs) ∧
        fieldInfos w fs = some (flds.map Field.ty) ∧
        flds.map Field.offset = offsetsOf false (fieldsSA w fs)) := by
  refine ⟨?_, ?_, ?_⟩
  · cases w <;> rfl
  · intro fs hl hd
    have ih := fieldsDescribable_fieldInfos_isSome w fs hd
    cases he : fieldInfos w fs with
    | none => rw [he] at ih; simp at ih
    | some ds => simp [type_info, hl, he]
  · intro fs flds sz h
    have hs := tuple_some_spec w fs flds sz h
    exact ⟨hs.2.2, hs.1, hs.2.1⟩

/-- Witness for C10 at the tuple `(i8, u32)` (64-bit): descriptors `[Int8,
UInt32]` in positional order, offsets [0, 4], total size 8. -/
theorem builtin_tuples_describable_witness :
    ((type_info .w64 (.tuple (.cons .i8 (.cons .u32 .nil)))).isSome
        = true) ∧
    (8 = size_of .w64 (.tuple (.cons .i8 (.cons .u32 .nil))) ∧
      fieldInfos .w64 (.cons .i8 (.cons .u32 .nil))
        = some ([Field.mk .Int8 0, Field.mk .UInt32 4].map Field.ty) ∧
      [Field.mk .Int8 0, Field.mk .UInt32 4].map Field.offset
        = offsetsOf false (fieldsSA .w64 (.cons .i8 (.cons .u32 .nil)))) :=
  ⟨(builtin_tuples_describable .w64).2.1 _ (by decide) (by decide),
   (builtin_tuples_describable .w64).2.2 _ _ _ rfl⟩

end Typeinfo
